import Mathlib

/-!
# Verification of the favigen ICO encoder/decoder

A shallow embedding of the PNG-to-ICO conversion module of the favigen
repository.  Byte buffers are modelled as `List Nat` (one entry per byte);
reads past the end of a buffer yield 0 only where the source code has
already checked the relevant length, so the embedding agrees with the
runtime semantics on every path the functions actually take.  Fallible
operations return `Except String`, mirroring the thrown `Error` objects
of the source; the runtime type checks (`Buffer.isBuffer`,
`Array.isArray`) are subsumed by the types of the embedding.  The
duplicate-dimension `console.warn` in `encodeIco` is console output with
no effect on the returned buffer and is therefore not part of the model.
-/

/-- PNG file signature bytes (`PNG_SIGNATURE` in the source). -/
def PNG_SIGNATURE : List Nat := [0x89, 0x50, 0x4e, 0x47, 0x0d, 0x0a, 0x1a, 0x0a]

/-- `buffer.readUInt16LE(off)`: little-endian 16-bit read. -/
def readUInt16LE (b : List Nat) (off : Nat) : Nat :=
  b.getD off 0 + b.getD (off + 1) 0 * 256

/-- `buffer.readUInt32LE(off)`: little-endian 32-bit read. -/
def readUInt32LE (b : List Nat) (off : Nat) : Nat :=
  b.getD off 0 + b.getD (off + 1) 0 * 256 +
    b.getD (off + 2) 0 * 65536 + b.getD (off + 3) 0 * 16777216

/-- `buffer.readUInt32BE(off)`: big-endian 32-bit read. -/
def readUInt32BE (b : List Nat) (off : Nat) : Nat :=
  b.getD off 0 * 16777216 + b.getD (off + 1) 0 * 65536 +
    b.getD (off + 2) 0 * 256 + b.getD (off + 3) 0

/-- The two bytes written by `writeUInt16LE v`. -/
def le16 (v : Nat) : List Nat := [v % 256, v / 256 % 256]

/-- The four bytes written by `writeUInt32LE v`. -/
def le32 (v : Nat) : List Nat :=
  [v % 256, v / 256 % 256, v / 65536 % 256, v / 16777216 % 256]

/-- `buffer.toString` with the ascii encoding over a byte slice: Node unsets the high
bit of every byte before decoding as latin1. -/
def asciiStr (bytes : List Nat) : String :=
  String.mk (bytes.map (fun v => Char.ofNat (v % 128)))

/-- `PngImageInfo` from the source: a PNG image with its metadata. -/
structure PngImageInfo where
  buffer : List Nat
  width : Nat
  height : Nat
  size : Nat
deriving DecidableEq

/-- `validateAndExtractPngInfo(buffer, index)` from the source. -/
def validateAndExtractPngInfo (buffer : List Nat) (index : Nat) :
    Except String PngImageInfo :=
  if buffer.length < 24 then
    Except.error ("Image " ++ toString index ++ ": PNG buffer too small (" ++
      toString buffer.length ++ " bytes, minimum 24 required)")
  else
    match (List.range 8).find?
        (fun i => buffer.getD i 0 != PNG_SIGNATURE.getD i 0) with
    | some i =>
      Except.error ("Image " ++ toString index ++
        ": Invalid PNG signature at byte " ++ toString i)
    | none =>
      let ihdrLength := readUInt32BE buffer 8
      if ihdrLength ≠ 13 then
        Except.error ("Image " ++ toString index ++
          ": Invalid IHDR chunk length: " ++ toString ihdrLength)
      else
        let ihdrType := asciiStr ((buffer.drop 12).take 4)
        if ihdrType ≠ "IHDR" then
          Except.error ("Image " ++ toString index ++
            ": Expected IHDR chunk, got " ++ ihdrType)
        else
          let width := readUInt32BE buffer 16
          let height := readUInt32BE buffer 20
          if width = 0 ∨ height = 0 then
            Except.error ("Image " ++ toString index ++
              ": Invalid dimensions: " ++ toString width ++ "x" ++ toString height)
          else if width > 256 ∨ height > 256 then
            Except.error ("Image " ++ toString index ++
              ": Dimensions too large: " ++ toString width ++ "x" ++
              toString height ++ " (max 256x256)")
          else
            Except.ok ⟨buffer, width, height, buffer.length⟩

/-- `createIcoDirectoryEntry(imageInfo, offset)` from the source.  Direct
byte assignment `entry[k] = v` keeps the low byte of `v`, hence the
`% 256` on the width and height bytes. -/
def createIcoDirectoryEntry (imageInfo : PngImageInfo) (offset : Nat) :
    List Nat :=
  [(if imageInfo.width = 256 then 0 else imageInfo.width) % 256,
   (if imageInfo.height = 256 then 0 else imageInfo.height) % 256,
   0, 0] ++
  le16 1 ++ le16 32 ++ le32 imageInfo.size ++ le32 offset

/-- The validation loop of `encodeIco`: validate each buffer in order,
wrapping the first failure as `Failed to process PNG image <index>: <cause>`.
`index` is the 1-based index of the head of `bufs`. -/
def validateAll (bufs : List (List Nat)) (index : Nat) :
    Except String (List PngImageInfo) :=
  match bufs with
  | [] => Except.ok []
  | b :: rest =>
    match validateAndExtractPngInfo b index with
    | Except.error e =>
      Except.error ("Failed to process PNG image " ++ toString index ++ ": " ++ e)
    | Except.ok info =>
      match validateAll rest (index + 1) with
      | Except.error e => Except.error e
      | Except.ok infos => Except.ok (info :: infos)

/-- The 6-byte ICO header built by `encodeIco`: reserved = 0, type = 1,
image count. -/
def icoHeader (count : Nat) : List Nat := le16 0 ++ le16 1 ++ le16 count

/-- The directory-entry loop of `encodeIco`: one 16-byte entry per image,
with the running payload offset advanced by the size of each image. -/
def buildDir (infos : List PngImageInfo) (offset : Nat) : List Nat :=
  match infos with
  | [] => []
  | info :: rest =>
    createIcoDirectoryEntry info offset ++ buildDir rest (offset + info.size)

/-- `encodeIco(pngBuffers)` from the source (the validated encoder at
lines 115-171). -/
def encodeIco (pngBuffers : List (List Nat)) : Except String (List Nat) :=
  if pngBuffers.length = 0 then
    Except.error ("At least one PNG buffer is required")
  else if pngBuffers.length > 256 then
    Except.error ("Too many images: " ++ toString pngBuffers.length ++ " (max 256)")
  else
    match validateAll pngBuffers 1 with
    | Except.error e => Except.error e
    | Except.ok imageInfos =>
      let count := imageInfos.length
      Except.ok (icoHeader count ++ buildDir imageInfos (6 + 16 * count) ++
        (imageInfos.map PngImageInfo.buffer).flatten)

/-- `pngToIco(pngBuffer)` from the source. -/
def pngToIco (pngBuffer : List Nat) : Except String (List Nat) :=
  encodeIco [pngBuffer]

/-- `isValidIco(buffer)` from the source. -/
def isValidIco (buffer : List Nat) : Bool :=
  if buffer.length < 6 then
    false
  else
    let reserved := readUInt16LE buffer 0
    let ty := readUInt16LE buffer 2
    let count := readUInt16LE buffer 4
    decide (reserved = 0) && (decide (ty = 1) || decide (ty = 2)) &&
      decide (count > 0) && decide (count ≤ 256)

/-- One decoded element of `getIcoInfo(...).images`. -/
structure IcoImageEntry where
  width : Nat
  height : Nat
  size : Nat
deriving DecidableEq

/-- The record returned by `getIcoInfo`. -/
structure IcoInfo where
  imageCount : Nat
  type : String
  images : List IcoImageEntry
deriving DecidableEq

/-- The directory-walking loop of `getIcoInfo`: the first argument is the
remaining iteration count, the second the current entry index `i`; the
loop breaks as soon as an entry would extend past the end of the buffer. -/
def icoImages (buffer : List Nat) : Nat → Nat → List IcoImageEntry
  | 0, _ => []
  | n + 1, i =>
    if buffer.length < 6 + 16 * i + 16 then
      []
    else
      let w := buffer.getD (6 + 16 * i) 0
      let h := buffer.getD (6 + 16 * i + 1) 0
      let size := readUInt32LE buffer (6 + 16 * i + 8)
      ⟨if w = 0 then 256 else w, if h = 0 then 256 else h, size⟩ ::
        icoImages buffer n (i + 1)

/-- `getIcoInfo(buffer)` from the source. -/
def getIcoInfo (buffer : List Nat) : Except String IcoInfo :=
  if isValidIco buffer = true then
    Except.ok ⟨readUInt16LE buffer 4,
      if readUInt16LE buffer 2 = 1 then "ICO" else "CUR",
      icoImages buffer (readUInt16LE buffer 4) 0⟩
  else
    Except.error ("Invalid ICO file")

/-- The per-image loop of the alternate, validation-free `encodeIco`
variant (second copy in the source, lines 240-277): checks only the 8-byte
PNG signature via two big-endian 32-bit reads, then writes the same
16-byte directory entry the validated encoder writes. -/
def altDirEntries (pngBuffers : List (List Nat)) (offset : Nat) :
    Except String (List Nat) :=
  match pngBuffers with
  | [] => Except.ok []
  | buf :: rest =>
    if readUInt32BE buf 0 ≠ 0x89504e47 ∨ readUInt32BE buf 4 ≠ 0x0d0a1a0a then
      Except.error ("Invalid PNG file")
    else
      let width := readUInt32BE buf 16
      let height := readUInt32BE buf 20
      let entry : List Nat :=
        [(if width = 256 then 0 else width) % 256,
         (if height = 256 then 0 else height) % 256,
         0, 0] ++ le16 1 ++ le16 32 ++ le32 buf.length ++ le32 offset
      match altDirEntries rest (offset + buf.length) with
      | Except.error e => Except.error e
      | Except.ok entries => Except.ok (entry ++ entries)

/-- The alternate, validation-free `encodeIco` variant itself. -/
def encodeIcoAlt (pngBuffers : List (List Nat)) : Except String (List Nat) :=
  let count := pngBuffers.length
  match altDirEntries pngBuffers (6 + 16 * count) with
  | Except.error e => Except.error e
  | Except.ok dirEntries =>
    Except.ok (icoHeader count ++ dirEntries ++ pngBuffers.flatten)

/-- The success condition of `validateAndExtractPngInfo`, stated the way
the specification words it: minimum length, PNG signature, IHDR chunk
length 13, ASCII chunk type `IHDR`, and both dimensions in (0, 256]. -/
def pngGood (b : List Nat) : Prop :=
  24 ≤ b.length ∧ b.take 8 = PNG_SIGNATURE ∧ readUInt32BE b 8 = 13 ∧
    asciiStr ((b.drop 12).take 4) = "IHDR" ∧
    0 < readUInt32BE b 16 ∧ readUInt32BE b 16 ≤ 256 ∧
    0 < readUInt32BE b 20 ∧ readUInt32BE b 20 ≤ 256

instance (b : List Nat) : Decidable (pngGood b) := by
  unfold pngGood
  infer_instance

/-- The `PngImageInfo` that validation produces on success. -/
def mkInfo (b : List Nat) : PngImageInfo :=
  ⟨b, readUInt32BE b 16, readUInt32BE b 20, b.length⟩

/-- Total payload length of a batch. -/
def sumLens (bufs : List (List Nat)) : Nat := (bufs.map List.length).sum

/-- The 0-means-256 reversal applied by `getIcoInfo` to width/height bytes. -/
def rev256 (x : Nat) : Nat := if x = 0 then 256 else x

/-- Sum of the stored sizes of a list of image infos. -/
def sumSizes (infos : List PngImageInfo) : Nat :=
  (infos.map PngImageInfo.size).sum

/-- Default image info used with `List.getD`. -/
def dInfo : PngImageInfo := ⟨[], 0, 0, 0⟩

/-- A concrete minimal well-formed 1x1 PNG buffer (24 bytes). -/
def png1 : List Nat :=
  PNG_SIGNATURE ++ [0, 0, 0, 13] ++ [73, 72, 68, 82] ++ [0, 0, 0, 1] ++ [0, 0, 0, 1]

/-- A concrete well-formed 256x256 PNG buffer (24 bytes). -/
def png256 : List Nat :=
  PNG_SIGNATURE ++ [0, 0, 0, 13] ++ [73, 72, 68, 82] ++ [0, 0, 1, 0] ++ [0, 0, 1, 0]

/-- The ICO document `encodeIco` produces for `[png1]`. -/
def out1 : List Nat :=
  [0, 0, 1, 0, 1, 0, 1, 1, 0, 0, 1, 0, 32, 0, 24, 0, 0, 0, 22, 0, 0, 0] ++ png1

/-- The ICO document `encodeIco` produces for `[png256]`. -/
def out256 : List Nat :=
  [0, 0, 1, 0, 1, 0, 0, 0, 0, 0, 1, 0, 32, 0, 24, 0, 0, 0, 22, 0, 0, 0] ++ png256

lemma entry_eq (info : PngImageInfo) (off : Nat) :
    createIcoDirectoryEntry info off =
      [(if info.width = 256 then 0 else info.width) % 256,
       (if info.height = 256 then 0 else info.height) % 256,
       0, 0, 1, 0, 32, 0,
       info.size % 256, info.size / 256 % 256,
       info.size / 65536 % 256, info.size / 16777216 % 256,
       off % 256, off / 256 % 256, off / 65536 % 256, off / 16777216 % 256] := rfl

lemma length_entry (info : PngImageInfo) (off : Nat) :
    (createIcoDirectoryEntry info off).length = 16 := rfl

lemma icoHeader_eq (c : Nat) : icoHeader c = [0, 0, 1, 0, c % 256, c / 256 % 256] := rfl

lemma length_buildDir (infos : List PngImageInfo) :
    ∀ off, (buildDir infos off).length = 16 * infos.length := by
  induction infos with
  | nil => intro off; simp [buildDir]
  | cons info rest ih =>
    intro off
    simp [buildDir, length_entry, ih]
    omega

lemma getD_map_lt {α β : Type} (f : α → β) (l : List α) (i : Nat)
    (h : i < l.length) (d : α) (d' : β) :
    (l.map f).getD i d' = f (l.getD i d) := by
  rw [List.getD_eq_getElem _ _ (by simpa using h), List.getD_eq_getElem _ _ h,
    List.getElem_map]

lemma sig_find_none_iff (b : List Nat) (hb : 8 ≤ b.length) :
    (List.range 8).find? (fun i => b.getD i 0 != PNG_SIGNATURE.getD i 0) = none ↔
      b.take 8 = PNG_SIGNATURE := by
  rw [List.find?_eq_none]
  constructor
  · intro h
    apply List.ext_getElem
    · simp [PNG_SIGNATURE]
      omega
    · intro n h1 h2
      have hn : n < 8 := by
        have := List.length_take 8 b
        omega
      have h8 : ¬ (b.getD n 0 != PNG_SIGNATURE.getD n 0) = true :=
        h n (by simpa using hn)
      simp only [bne_iff_ne, ne_eq, not_not] at h8
      rw [List.getElem_take]
      rw [← List.getD_eq_getElem b 0 (by omega),
        ← List.getD_eq_getElem PNG_SIGNATURE 0 h2]
      exact h8
  · intro h i hi
    simp only [List.mem_range] at hi
    simp only [bne_iff_ne, ne_eq, not_not]
    have hb8 : b = PNG_SIGNATURE ++ b.drop 8 := by
      conv_lhs => rw [← List.take_append_drop 8 b, h]
    rw [hb8, List.getD_append]
    simp [PNG_SIGNATURE]
    omega

lemma validate_ok_of_good (b : List Nat) (idx : Nat) (h : pngGood b) :
    validateAndExtractPngInfo b idx = Except.ok (mkInfo b) := by
  obtain ⟨h1, h2, h3, h4, h5, h6, h7, h8⟩ := h
  unfold validateAndExtractPngInfo
  rw [if_neg (by omega)]
  rw [(sig_find_none_iff b (by omega)).mpr h2]
  simp only [h3, h4, mkInfo]
  norm_num
  rw [if_neg (by omega), if_neg (by omega)]

lemma validate_ok_elim (b : List Nat) (idx : Nat) (info : PngImageInfo)
    (h : validateAndExtractPngInfo b idx = Except.ok info) :
    pngGood b ∧ info = mkInfo b := by
  unfold validateAndExtractPngInfo at h
  split at h
  · exact absurd h (by simp)
  · rename_i hlen
    split at h
    · exact absurd h (by simp)
    · rename_i hfind
      rw [sig_find_none_iff b (by omega)] at hfind
      dsimp only at h
      split at h
      · exact absurd h (by simp)
      · rename_i hihdr
        split at h
        · exact absurd h (by simp)
        · rename_i htype
          split at h
          · exact absurd h (by simp)
          · rename_i hdim0
            split at h
            · exact absurd h (by simp)
            · rename_i hdimBig
              simp only [Except.ok.injEq] at h
              refine ⟨⟨by omega, hfind, by omega, by simpa using htype,
                by omega, by omega, by omega, by omega⟩, ?_⟩
              rw [← h]
              rfl

lemma validate_error_of_bad (b : List Nat) (idx : Nat) (h : ¬ pngGood b) :
    ∃ e, validateAndExtractPngInfo b idx = Except.error e := by
  cases hv : validateAndExtractPngInfo b idx with
  | error e => exact ⟨e, rfl⟩
  | ok info => exact absurd (validate_ok_elim b idx info hv).1 h

lemma validate_not_ok_of_bad (b : List Nat) (idx : Nat) (info : PngImageInfo)
    (h : ¬ pngGood b) : validateAndExtractPngInfo b idx ≠ Except.ok info := by
  intro hv
  exact h (validate_ok_elim b idx info hv).1

lemma validateAll_ok_of_good (bufs : List (List Nat)) :
    ∀ k, (∀ b ∈ bufs, pngGood b) →
      validateAll bufs k = Except.ok (bufs.map mkInfo) := by
  induction bufs with
  | nil => intro k _; rfl
  | cons b rest ih =>
    intro k hgood
    unfold validateAll
    rw [validate_ok_of_good b k (hgood b (by simp))]
    rw [ih (k + 1) (fun x hx => hgood x (by simp [hx]))]
    rfl

lemma validateAll_ok_elim (bufs : List (List Nat)) :
    ∀ k infos, validateAll bufs k = Except.ok infos →
      infos = bufs.map mkInfo ∧ ∀ b ∈ bufs, pngGood b := by
  induction bufs with
  | nil =>
    intro k infos h
    simp only [validateAll, Except.ok.injEq] at h
    simp [← h]
  | cons b rest ih =>
    intro k infos h
    unfold validateAll at h
    split at h
    · exact absurd h (by simp)
    · rename_i info hinfo
      split at h
      · exact absurd h (by simp)
      · rename_i infos' hrest
        obtain ⟨hmap, hall⟩ := ih (k + 1) infos' hrest
        obtain ⟨hgb, hib⟩ := validate_ok_elim b k info hinfo
        simp only [Except.ok.injEq] at h
        subst h hmap hib
        constructor
        · simp
        · intro x hx
          rcases List.mem_cons.mp hx with hx | hx
          · rw [hx]; exact hgb
          · exact hall x hx

lemma validateAll_error_at (bufs : List (List Nat)) :
    ∀ k i, i < bufs.length →
      (∀ j, j < i → pngGood (bufs.getD j [])) →
      ¬ pngGood (bufs.getD i []) →
      ∃ cause, validateAndExtractPngInfo (bufs.getD i []) (k + i) = Except.error cause ∧
        validateAll bufs k =
          Except.error ("Failed to process PNG image " ++ toString (k + i) ++ ": " ++ cause) := by
  induction bufs with
  | nil => intro k i hi; simp at hi
  | cons b rest ih =>
    intro k i hi hbefore hbad
    cases i with
    | zero =>
      simp only [List.getD_cons_zero] at hbad
      obtain ⟨e, he⟩ := validate_error_of_bad b k hbad
      refine ⟨e, by simpa using he, ?_⟩
      unfold validateAll
      rw [he]
      simp
    | succ i' =>
      have hb : pngGood b := by
        have := hbefore 0 (by omega)
        simpa using this
      obtain ⟨cause, hc, hall⟩ := ih (k + 1) i' (by simpa using hi)
        (fun j hj => by
          have := hbefore (j + 1) (by omega)
          simpa using this)
        (by simpa using hbad)
      refine ⟨cause, ?_, ?_⟩
      · have : k + 1 + i' = k + (i' + 1) := by omega
        rw [← this]
        simpa using hc
      · unfold validateAll
        rw [validate_ok_of_good b k hb, hall]
        have : k + 1 + i' = k + (i' + 1) := by omega
        rw [this]

lemma map_buffer_map_mkInfo (bufs : List (List Nat)) :
    (bufs.map mkInfo).map PngImageInfo.buffer = bufs := by
  rw [List.map_map]
  have : PngImageInfo.buffer ∘ mkInfo = id := by
    funext b
    rfl
  rw [this, List.map_id]

lemma encodeIco_ok_of_good (bufs : List (List Nat))
    (h1 : 0 < bufs.length) (h2 : bufs.length ≤ 256)
    (h3 : ∀ b ∈ bufs, pngGood b) :
    encodeIco bufs = Except.ok
      (icoHeader bufs.length ++ buildDir (bufs.map mkInfo) (6 + 16 * bufs.length) ++
        bufs.flatten) := by
  unfold encodeIco
  rw [if_neg (by omega), if_neg (by omega)]
  rw [validateAll_ok_of_good bufs 1 h3]
  dsimp only
  rw [map_buffer_map_mkInfo, List.length_map]

lemma encodeIco_ok_elim (bufs : List (List Nat)) (out : List Nat)
    (h : encodeIco bufs = Except.ok out) :
    0 < bufs.length ∧ bufs.length ≤ 256 ∧ (∀ b ∈ bufs, pngGood b) ∧
      out = icoHeader bufs.length ++ buildDir (bufs.map mkInfo) (6 + 16 * bufs.length) ++
        bufs.flatten := by
  unfold encodeIco at h
  split at h
  · exact absurd h (by simp)
  · split at h
    · exact absurd h (by simp)
    · rename_i hlen0 hlen256
      split at h
      · exact absurd h (by simp)
      · rename_i infos hinfos
        obtain ⟨hmap, hall⟩ := validateAll_ok_elim bufs 1 infos hinfos
        subst hmap
        simp only [Except.ok.injEq] at h
        refine ⟨by omega, by omega, hall, ?_⟩
        rw [← h, map_buffer_map_mkInfo, List.length_map]

lemma sumLens_flatten (bufs : List (List Nat)) :
    bufs.flatten.length = sumLens bufs := by
  rw [List.length_flatten, sumLens]

lemma encode_header_reads (bufs : List (List Nat)) (out : List Nat)
    (h : encodeIco bufs = Except.ok out) :
    readUInt16LE out 0 = 0 ∧ readUInt16LE out 2 = 1 ∧
      readUInt16LE out 4 = bufs.length ∧
      out.length = 6 + 16 * bufs.length + sumLens bufs := by
  obtain ⟨h1, h2, _, hout⟩ := encodeIco_ok_elim bufs out h
  have hb : ∀ j, j < 6 → out.getD j 0 =
      [0, 0, 1, 0, bufs.length % 256, bufs.length / 256 % 256].getD j 0 := by
    intro j hj
    rw [hout, List.append_assoc, List.getD_append, icoHeader_eq]
    simpa using hj
  have h0 : out.getD 0 0 = 0 := by rw [hb 0 (by omega)]; rfl
  have h1' : out.getD 1 0 = 0 := by rw [hb 1 (by omega)]; rfl
  have h2' : out.getD 2 0 = 1 := by rw [hb 2 (by omega)]; rfl
  have h3' : out.getD 3 0 = 0 := by rw [hb 3 (by omega)]; rfl
  have h4' : out.getD 4 0 = bufs.length % 256 := by rw [hb 4 (by omega)]; rfl
  have h5' : out.getD 5 0 = bufs.length / 256 % 256 := by rw [hb 5 (by omega)]; rfl
  refine ⟨?_, ?_, ?_, ?_⟩
  · have hr : readUInt16LE out 0 = out.getD 0 0 + out.getD 1 0 * 256 := rfl
    rw [hr, h0, h1']
  · have hr : readUInt16LE out 2 = out.getD 2 0 + out.getD 3 0 * 256 := rfl
    rw [hr, h2', h3']
  · have hr : readUInt16LE out 4 = out.getD 4 0 + out.getD 5 0 * 256 := rfl
    rw [hr, h4', h5']
    omega
  · rw [hout]
    simp only [List.length_append, List.length_flatten, length_buildDir,
      List.length_map, show (icoHeader bufs.length).length = 6 from rfl, sumLens]

lemma buildDir_getD (infos : List PngImageInfo) :
    ∀ off i j, i < infos.length → j < 16 →
      (buildDir infos off).getD (16 * i + j) 0 =
        (createIcoDirectoryEntry (infos.getD i dInfo)
          (off + sumSizes (infos.take i))).getD j 0 := by
  induction infos with
  | nil => intro off i j hi _; simp at hi
  | cons info rest ih =>
    intro off i j hi hj
    cases i with
    | zero =>
      unfold buildDir
      rw [show 16 * 0 + j = j by omega]
      rw [List.getD_append _ _ _ _ (by rw [length_entry]; omega)]
      simp [sumSizes]
    | succ i' =>
      unfold buildDir
      rw [show 16 * (i' + 1) + j = 16 + (16 * i' + j) by omega]
      rw [show (16 : Nat) = (createIcoDirectoryEntry info off).length from
        (length_entry info off).symm]
      rw [List.getD_append_right _ _ _ _ (by omega)]
      rw [length_entry]
      rw [show 16 + (16 * i' + j) - 16 = 16 * i' + j by omega]
      rw [ih (off + info.size) i' j (by simpa using hi) hj]
      have harith : off + info.size + sumSizes (rest.take i') =
          off + sumSizes ((info :: rest).take (i' + 1)) := by
        simp [sumSizes]
        omega
      rw [show ((info :: rest).getD (i' + 1) dInfo) = rest.getD i' dInfo from rfl]
      rw [harith]

lemma sumSizes_map_mkInfo (bufs : List (List Nat)) (i : Nat) :
    sumSizes ((bufs.map mkInfo).take i) = sumLens (bufs.take i) := by
  rw [sumSizes, sumLens, ← List.map_take, List.map_map]
  have : PngImageInfo.size ∘ mkInfo = List.length := by
    funext b
    rfl
  rw [this]

lemma getD_map_mkInfo (bufs : List (List Nat)) (i : Nat) (hi : i < bufs.length) :
    (bufs.map mkInfo).getD i dInfo = mkInfo (bufs.getD i []) := by
  exact getD_map_lt mkInfo bufs i hi [] dInfo

lemma out_getD (bufs : List (List Nat)) (i j : Nat)
    (hi : i < bufs.length) (hj : j < 16) :
    (icoHeader bufs.length ++ buildDir (bufs.map mkInfo) (6 + 16 * bufs.length) ++
        bufs.flatten).getD (6 + (16 * i + j)) 0 =
      (createIcoDirectoryEntry (mkInfo (bufs.getD i []))
        (6 + 16 * bufs.length + sumLens (bufs.take i))).getD j 0 := by
  rw [List.append_assoc]
  rw [show (6 : Nat) + (16 * i + j) = (icoHeader bufs.length).length + (16 * i + j)
    from by rw [show (icoHeader bufs.length).length = 6 from rfl]]
  rw [List.getD_append_right _ _ _ _ (by omega)]
  rw [show (icoHeader bufs.length).length + (16 * i + j) -
    (icoHeader bufs.length).length = 16 * i + j by omega]
  rw [List.getD_append _ _ _ _
    (by rw [length_buildDir, List.length_map]; omega)]
  rw [buildDir_getD (bufs.map mkInfo) (6 + 16 * bufs.length) i j
    (by rw [List.length_map]; omega) hj]
  rw [getD_map_mkInfo bufs i hi, sumSizes_map_mkInfo]

lemma entry_getD_0 (info : PngImageInfo) (off : Nat) :
    (createIcoDirectoryEntry info off).getD 0 0 =
      (if info.width = 256 then 0 else info.width) % 256 := rfl

lemma entry_getD_1 (info : PngImageInfo) (off : Nat) :
    (createIcoDirectoryEntry info off).getD 1 0 =
      (if info.height = 256 then 0 else info.height) % 256 := rfl

lemma entry_size_read (info : PngImageInfo) (off : Nat)
    (hs : info.size < 4294967296) :
    (createIcoDirectoryEntry info off).getD 8 0 +
      (createIcoDirectoryEntry info off).getD 9 0 * 256 +
      (createIcoDirectoryEntry info off).getD 10 0 * 65536 +
      (createIcoDirectoryEntry info off).getD 11 0 * 16777216 = info.size := by
  rw [show (createIcoDirectoryEntry info off).getD 8 0 = info.size % 256 from rfl,
    show (createIcoDirectoryEntry info off).getD 9 0 = info.size / 256 % 256 from rfl,
    show (createIcoDirectoryEntry info off).getD 10 0 = info.size / 65536 % 256 from rfl,
    show (createIcoDirectoryEntry info off).getD 11 0 = info.size / 16777216 % 256 from rfl]
  omega

lemma entry_offset_read (info : PngImageInfo) (off : Nat)
    (ho : off < 4294967296) :
    (createIcoDirectoryEntry info off).getD 12 0 +
      (createIcoDirectoryEntry info off).getD 13 0 * 256 +
      (createIcoDirectoryEntry info off).getD 14 0 * 65536 +
      (createIcoDirectoryEntry info off).getD 15 0 * 16777216 = off := by
  rw [show (createIcoDirectoryEntry info off).getD 12 0 = off % 256 from rfl,
    show (createIcoDirectoryEntry info off).getD 13 0 = off / 256 % 256 from rfl,
    show (createIcoDirectoryEntry info off).getD 14 0 = off / 65536 % 256 from rfl,
    show (createIcoDirectoryEntry info off).getD 15 0 = off / 16777216 % 256 from rfl]
  omega

lemma rev256_store (w : Nat) (h1 : 0 < w) (h2 : w ≤ 256) :
    rev256 ((if w = 256 then 0 else w) % 256) = w := by
  by_cases hw : w = 256
  · rw [if_pos hw, rev256]
    norm_num
    omega
  · rw [if_neg hw, Nat.mod_eq_of_lt (by omega), rev256, if_neg (by omega)]

lemma isValidIco_of_encode (bufs : List (List Nat)) (out : List Nat)
    (h : encodeIco bufs = Except.ok out) : isValidIco out = true := by
  obtain ⟨hr0, hr2, hr4, hlen⟩ := encode_header_reads bufs out h
  obtain ⟨h1, h2, _, _⟩ := encodeIco_ok_elim bufs out h
  unfold isValidIco
  rw [if_neg (by omega)]
  simp only [hr0, hr2, hr4]
  simp only [decide_eq_true_eq, Bool.and_eq_true, Bool.or_eq_true]
  refine ⟨⟨⟨by simp, Or.inl (by simp)⟩, by simpa using h1⟩, by simpa using h2⟩

lemma icoImages_eq_range (b : List Nat) :
    ∀ n i, icoImages b n i =
      (List.range (min n ((b.length - 6) / 16 - i))).map
        (fun k => ⟨rev256 (b.getD (6 + 16 * (i + k)) 0),
                   rev256 (b.getD (6 + 16 * (i + k) + 1) 0),
                   readUInt32LE b (6 + 16 * (i + k) + 8)⟩) := by
  intro n
  induction n with
  | zero => intro i; simp [icoImages]
  | succ n ih =>
    intro i
    unfold icoImages
    by_cases hlen : b.length < 6 + 16 * i + 16
    · rw [if_pos hlen]
      rw [show (b.length - 6) / 16 - i = 0 by omega]
      simp
    · rw [if_neg hlen]
      have hD : (b.length - 6) / 16 - i = ((b.length - 6) / 16 - (i + 1)) + 1 := by
        omega
      rw [hD, Nat.succ_min_succ, List.range_succ_eq_map, List.map_cons,
        List.map_map]
      have hhead : (⟨if b.getD (6 + 16 * i) 0 = 0 then 256 else b.getD (6 + 16 * i) 0,
          if b.getD (6 + 16 * i + 1) 0 = 0 then 256 else b.getD (6 + 16 * i + 1) 0,
          readUInt32LE b (6 + 16 * i + 8)⟩ : IcoImageEntry) =
          ⟨rev256 (b.getD (6 + 16 * (i + 0)) 0),
           rev256 (b.getD (6 + 16 * (i + 0) + 1) 0),
           readUInt32LE b (6 + 16 * (i + 0) + 8)⟩ := by
        rw [show i + 0 = i by omega]
        rfl
      rw [ih (i + 1)]
      dsimp only
      rw [hhead]
      congr 1
      apply List.map_congr_left
      intro k _
      have e1 : i + Nat.succ k = i + 1 + k := by omega
      simp only [Function.comp_apply, e1]

lemma getIcoInfo_of_valid (b : List Nat) (h : isValidIco b = true) :
    getIcoInfo b = Except.ok
      ⟨readUInt16LE b 4,
       if readUInt16LE b 2 = 1 then "ICO" else "CUR",
       (List.range (min (readUInt16LE b 4) ((b.length - 6) / 16))).map
         (fun k => ⟨rev256 (b.getD (6 + 16 * k) 0),
                    rev256 (b.getD (6 + 16 * k + 1) 0),
                    readUInt32LE b (6 + 16 * k + 8)⟩)⟩ := by
  unfold getIcoInfo
  rw [if_pos h]
  rw [icoImages_eq_range b (readUInt16LE b 4) 0]
  rw [show (b.length - 6) / 16 - 0 = (b.length - 6) / 16 by omega]
  congr 1
  apply congrArg
  apply List.map_congr_left
  intro k _
  rw [show 0 + k = k by omega]

lemma payload_le_sumLens (bufs : List (List Nat)) (i : Nat) (hi : i < bufs.length) :
    (bufs.getD i []).length ≤ sumLens bufs := by
  have hmem : bufs.getD i [] ∈ bufs := by
    rw [List.getD_eq_getElem bufs [] hi]
    exact List.getElem_mem hi
  have : (bufs.getD i []).length ∈ bufs.map List.length :=
    List.mem_map_of_mem List.length hmem
  exact List.single_le_sum (fun x _ => Nat.zero_le x) _ this

lemma sumLens_take_le (bufs : List (List Nat)) (i : Nat) :
    sumLens (bufs.take i) + sumLens (bufs.drop i) = sumLens bufs := by
  rw [sumLens, sumLens, sumLens, ← List.sum_append, ← List.map_append,
    List.take_append_drop]

lemma decoded_images (bufs : List (List Nat)) (out : List Nat)
    (h32 : out.length < 4294967296)
    (henc : encodeIco bufs = Except.ok out) :
    getIcoInfo out = Except.ok
      ⟨bufs.length, "ICO",
       bufs.map (fun b => ⟨readUInt32BE b 16, readUInt32BE b 20, b.length⟩)⟩ := by
  obtain ⟨hN1, hN2, hgood, hout⟩ := encodeIco_ok_elim bufs out henc
  obtain ⟨hr0, hr2, hr4, hlen⟩ := encode_header_reads bufs out henc
  rw [getIcoInfo_of_valid out (isValidIco_of_encode bufs out henc)]
  rw [hr2, hr4, if_pos rfl]
  have hmin : min bufs.length ((out.length - 6) / 16) = bufs.length := by
    omega
  rw [hmin]
  apply congrArg
  apply congrArg
  apply List.ext_getElem
  · rw [List.length_map, List.length_range, List.length_map]
  · intro k h1 h2
    rw [List.getElem_map, List.getElem_range, List.getElem_map]
    have hk : k < bufs.length := by
      rw [List.length_map, List.length_range] at h1
      omega
    have hget : bufs[k] = bufs.getD k [] := (List.getD_eq_getElem bufs [] hk).symm
    rw [hget]
    have hgoodk : pngGood (bufs.getD k []) := by
      apply hgood
      rw [List.getD_eq_getElem bufs [] hk]
      exact List.getElem_mem hk
    obtain ⟨hg1, hg2, hg3, hg4, hg5, hg6, hg7, hg8⟩ := hgoodk
    have hsize : (bufs.getD k []).length < 4294967296 := by
      have := payload_le_sumLens bufs k hk
      omega
    have hb0 : out.getD (6 + 16 * k) 0 =
        (if readUInt32BE (bufs.getD k []) 16 = 256 then 0
          else readUInt32BE (bufs.getD k []) 16) % 256 := by
      rw [hout, show 6 + 16 * k = 6 + (16 * k + 0) by omega,
        out_getD bufs k 0 hk (by omega), entry_getD_0]
      rfl
    have hb1 : out.getD (6 + 16 * k + 1) 0 =
        (if readUInt32BE (bufs.getD k []) 20 = 256 then 0
          else readUInt32BE (bufs.getD k []) 20) % 256 := by
      rw [hout, show 6 + 16 * k + 1 = 6 + (16 * k + 1) by omega,
        out_getD bufs k 1 hk (by omega), entry_getD_1]
      rfl
    have hsz : readUInt32LE out (6 + 16 * k + 8) = (bufs.getD k []).length := by
      rw [readUInt32LE]
      rw [show 6 + 16 * k + 8 = 6 + (16 * k + 8) by omega,
        show 6 + (16 * k + 8) + 1 = 6 + (16 * k + 9) by omega,
        show 6 + (16 * k + 8) + 2 = 6 + (16 * k + 10) by omega,
        show 6 + (16 * k + 8) + 3 = 6 + (16 * k + 11) by omega]
      rw [hout, out_getD bufs k 8 hk (by omega), out_getD bufs k 9 hk (by omega),
        out_getD bufs k 10 hk (by omega), out_getD bufs k 11 hk (by omega)]
      have := entry_size_read (mkInfo (bufs.getD k []))
        (6 + 16 * bufs.length + sumLens (bufs.take k)) (by simpa [mkInfo] using hsize)
      simpa [mkInfo] using this
    rw [hb0, hb1, hsz]
    rw [rev256_store _ hg5 hg6, rev256_store _ hg7 hg8]

lemma flatten_drop_sumLens (bufs : List (List Nat)) :
    ∀ i, bufs.flatten.drop (sumLens (bufs.take i)) = (bufs.drop i).flatten := by
  induction bufs with
  | nil => intro i; simp [sumLens]
  | cons b rest ih =>
    intro i
    cases i with
    | zero => simp [sumLens]
    | succ i' =>
      rw [List.take_succ_cons, List.drop_succ_cons, List.flatten_cons]
      rw [show sumLens (b :: rest.take i') = b.length + sumLens (rest.take i') from
        by simp [sumLens]]
      rw [List.drop_append (sumLens (rest.take i'))]
      exact ih i'

lemma offset_read (bufs : List (List Nat)) (out : List Nat)
    (h32 : out.length < 4294967296)
    (henc : encodeIco bufs = Except.ok out)
    (i : Nat) (hi : i < bufs.length) :
    readUInt32LE out (6 + 16 * i + 12) =
      6 + 16 * bufs.length + sumLens (bufs.take i) := by
  obtain ⟨hN1, hN2, hgood, hout⟩ := encodeIco_ok_elim bufs out henc
  obtain ⟨_, _, _, hlen⟩ := encode_header_reads bufs out henc
  have hofflt : 6 + 16 * bufs.length + sumLens (bufs.take i) < 4294967296 := by
    have := sumLens_take_le bufs i
    omega
  rw [readUInt32LE]
  rw [show 6 + 16 * i + 12 = 6 + (16 * i + 12) by omega,
    show 6 + (16 * i + 12) + 1 = 6 + (16 * i + 13) by omega,
    show 6 + (16 * i + 12) + 2 = 6 + (16 * i + 14) by omega,
    show 6 + (16 * i + 12) + 3 = 6 + (16 * i + 15) by omega]
  rw [hout, out_getD bufs i 12 hi (by omega), out_getD bufs i 13 hi (by omega),
    out_getD bufs i 14 hi (by omega), out_getD bufs i 15 hi (by omega)]
  exact entry_offset_read (mkInfo (bufs.getD i []))
    (6 + 16 * bufs.length + sumLens (bufs.take i)) hofflt

lemma payload_slice (bufs : List (List Nat)) (out : List Nat)
    (henc : encodeIco bufs = Except.ok out)
    (i : Nat) (hi : i < bufs.length) :
    (out.drop (6 + 16 * bufs.length + sumLens (bufs.take i))).take
        (bufs.getD i []).length = bufs.getD i [] := by
  obtain ⟨hN1, hN2, hgood, hout⟩ := encodeIco_ok_elim bufs out henc
  have hpre : (icoHeader bufs.length ++
      buildDir (bufs.map mkInfo) (6 + 16 * bufs.length)).length =
      6 + 16 * bufs.length := by
    rw [List.length_append, length_buildDir, List.length_map]
    rfl
  rw [hout]
  rw [show 6 + 16 * bufs.length + sumLens (bufs.take i) =
    (icoHeader bufs.length ++
      buildDir (bufs.map mkInfo) (6 + 16 * bufs.length)).length +
      sumLens (bufs.take i) from by rw [hpre]]
  rw [List.drop_append (sumLens (bufs.take i))]
  rw [flatten_drop_sumLens bufs i]
  rw [List.drop_eq_getElem_cons hi, List.flatten_cons]
  rw [show bufs[i] = bufs.getD i [] from (List.getD_eq_getElem bufs [] hi).symm]
  exact List.take_left _ _

lemma size_read (bufs : List (List Nat)) (out : List Nat)
    (h32 : out.length < 4294967296)
    (henc : encodeIco bufs = Except.ok out)
    (i : Nat) (hi : i < bufs.length) :
    readUInt32LE out (6 + 16 * i + 8) = (bufs.getD i []).length := by
  obtain ⟨hN1, hN2, hgood, hout⟩ := encodeIco_ok_elim bufs out henc
  obtain ⟨_, _, _, hlen⟩ := encode_header_reads bufs out henc
  have hsize : (bufs.getD i []).length < 4294967296 := by
    have := payload_le_sumLens bufs i hi
    omega
  rw [readUInt32LE]
  rw [show 6 + 16 * i + 8 = 6 + (16 * i + 8) by omega,
    show 6 + (16 * i + 8) + 1 = 6 + (16 * i + 9) by omega,
    show 6 + (16 * i + 8) + 2 = 6 + (16 * i + 10) by omega,
    show 6 + (16 * i + 8) + 3 = 6 + (16 * i + 11) by omega]
  rw [hout, out_getD bufs i 8 hi (by omega), out_getD bufs i 9 hi (by omega),
    out_getD bufs i 10 hi (by omega), out_getD bufs i 11 hi (by omega)]
  have := entry_size_read (mkInfo (bufs.getD i []))
    (6 + 16 * bufs.length + sumLens (bufs.take i)) (by simpa [mkInfo] using hsize)
  simpa [mkInfo] using this

lemma sig_reads_of_good (b : List Nat) (h : pngGood b) :
    readUInt32BE b 0 = 0x89504e47 ∧ readUInt32BE b 4 = 0x0d0a1a0a := by
  obtain ⟨h1, h2, _⟩ := h
  have hb : b = PNG_SIGNATURE ++ b.drop 8 := by
    conv_lhs => rw [← List.take_append_drop 8 b, h2]
  have hbyte : ∀ j, j < 8 → b.getD j 0 = PNG_SIGNATURE.getD j 0 := by
    intro j hj
    rw [hb, List.getD_append]
    simp [PNG_SIGNATURE]
    omega
  constructor
  · rw [readUInt32BE, hbyte 0 (by omega), hbyte 1 (by omega),
      hbyte 2 (by omega), hbyte 3 (by omega)]
    rfl
  · rw [readUInt32BE, hbyte 4 (by omega), hbyte 5 (by omega),
      hbyte 6 (by omega), hbyte 7 (by omega)]
    rfl

lemma altDirEntries_of_good (bufs : List (List Nat)) :
    ∀ off, (∀ b ∈ bufs, pngGood b) →
      altDirEntries bufs off = Except.ok (buildDir (bufs.map mkInfo) off) := by
  induction bufs with
  | nil => intro off _; rfl
  | cons b rest ih =>
    intro off hgood
    obtain ⟨hs0, hs4⟩ := sig_reads_of_good b (hgood b (by simp))
    unfold altDirEntries
    rw [if_neg (by rw [hs0, hs4]; simp)]
    rw [ih (off + b.length) (fun x hx => hgood x (by simp [hx]))]
    dsimp only
    rw [List.map_cons]
    conv_rhs => rw [buildDir]
    have hentry : createIcoDirectoryEntry (mkInfo b) off =
        [(if readUInt32BE b 16 = 256 then 0 else readUInt32BE b 16) % 256,
         (if readUInt32BE b 20 = 256 then 0 else readUInt32BE b 20) % 256,
         0, 0] ++ le16 1 ++ le16 32 ++ le32 b.length ++ le32 off := rfl
    rw [hentry, show (mkInfo b).size = b.length from rfl]

/-- C1: for every batch accepted by `encodeIco` (any 1..256 well-formed PNG
buffers with dimensions in (0, 256], which is exactly when `encodeIco`
returns a buffer), decoding the output with `getIcoInfo` reports the
original batch: the image count is the batch length and the i-th reported
entry carries the IHDR width and height of the i-th input and its byte length.
The bound on `out.length` reflects the Node runtime, where a `Buffer`
never reaches 2^32 bytes. -/
theorem claim1_round_trip (bufs : List (List Nat)) (out : List Nat)
    (h32 : out.length < 4294967296)
    (henc : encodeIco bufs = Except.ok out) :
    getIcoInfo out = Except.ok
      ⟨bufs.length, "ICO",
       bufs.map (fun b => ⟨readUInt32BE b 16, readUInt32BE b 20, b.length⟩)⟩ :=
  decoded_images bufs out h32 henc

/-- Witness for C1 on the concrete single-image batch `[png1]`. -/
theorem claim1_round_trip_witness :
    getIcoInfo out1 = Except.ok ⟨1, "ICO", [⟨1, 1, 24⟩]⟩ := by
  have h := claim1_round_trip [png1] out1 (by decide) (by rfl)
  exact h

/-- C2: in every `encodeIco` output, the little-endian 32-bit payload
offset stored at bytes 12-15 of the i-th directory entry equals
`6 + 16 * N` plus the total length of the first `i` payloads, and the
slice of the output starting there whose length is the stored size
(bytes 8-11) is the i-th input buffer itself. -/
theorem claim2_offset_correct (bufs : List (List Nat)) (out : List Nat)
    (h32 : out.length < 4294967296)
    (henc : encodeIco bufs = Except.ok out)
    (i : Nat) (hi : i < bufs.length) :
    readUInt32LE out (6 + 16 * i + 12) =
        6 + 16 * bufs.length + sumLens (bufs.take i) ∧
      (out.drop (6 + 16 * bufs.length + sumLens (bufs.take i))).take
          (readUInt32LE out (6 + 16 * i + 8)) = bufs.getD i [] := by
  refine ⟨offset_read bufs out h32 henc i hi, ?_⟩
  rw [size_read bufs out h32 henc i hi]
  exact payload_slice bufs out henc i hi

/-- Witness for C2 on `[png1]` at index 0. -/
theorem claim2_offset_correct_witness :
    readUInt32LE out1 (6 + 16 * 0 + 12) =
        6 + 16 * [png1].length + sumLens ([png1].take 0) ∧
      (out1.drop (6 + 16 * [png1].length + sumLens ([png1].take 0))).take
          (readUInt32LE out1 (6 + 16 * 0 + 8)) = [png1].getD 0 [] :=
  claim2_offset_correct [png1] out1 (by decide) (by rfl) 0 (by decide)

/-- C3: `encodeIco` fails on an empty batch and on more than 256 images;
and when the first failing buffer sits at (0-based) index i, the whole
encode aborts with an error naming the 1-based index `i + 1` together
with the underlying cause, returning no output buffer. -/
theorem claim3_rejection (bufs : List (List Nat)) :
    (bufs.length = 0 →
      encodeIco bufs = Except.error ("At least one PNG buffer is required")) ∧
    (256 < bufs.length →
      encodeIco bufs =
        Except.error ("Too many images: " ++ toString bufs.length ++ " (max 256)")) ∧
    (∀ i, i < bufs.length → 0 < bufs.length → bufs.length ≤ 256 →
      (∀ j, j < i → pngGood (bufs.getD j [])) →
      ¬ pngGood (bufs.getD i []) →
      ∃ cause, validateAndExtractPngInfo (bufs.getD i []) (i + 1) =
          Except.error cause ∧
        encodeIco bufs = Except.error
          ("Failed to process PNG image " ++ toString (i + 1) ++ ": " ++ cause)) := by
  refine ⟨?_, ?_, ?_⟩
  · intro h0
    unfold encodeIco
    rw [if_pos h0]
  · intro hgt
    unfold encodeIco
    rw [if_neg (by omega), if_pos (by omega)]
  · intro i hi h1 h2 hbefore hbad
    obtain ⟨cause, hc, hall⟩ := validateAll_error_at bufs 1 i hi hbefore hbad
    rw [Nat.add_comm 1 i] at hc hall
    refine ⟨cause, hc, ?_⟩
    unfold encodeIco
    rw [if_neg (by omega), if_neg (by omega), hall]

/-- Witness for C3 on the concrete batch `[[0]]`, whose single buffer is
far too short to be a PNG. -/
theorem claim3_rejection_witness :
    ∃ cause, validateAndExtractPngInfo ([[0]].getD 0 []) (0 + 1) =
        Except.error cause ∧
      encodeIco [[0]] = Except.error
        ("Failed to process PNG image " ++ toString (0 + 1) ++ ": " ++ cause) :=
  (claim3_rejection [[0]]).2.2 0 (by decide) (by decide) (by decide)
    (fun j hj => absurd hj (Nat.not_lt_zero j)) (by decide)

/-- C4: `validateAndExtractPngInfo` fails exactly when the buffer is too
short, the signature is wrong, the IHDR length field is not 13, the
ASCII chunk-type string is not IHDR, or a dimension is 0 or above 256
(the not-byte-data case of the source is subsumed by the byte-list
type of the embedding); otherwise it returns the buffer with the two
IHDR dimensions and the byte length, and being pure it has no side
effects. -/
theorem claim4_validate_spec (b : List Nat) (idx : Nat) :
    ((∃ e, validateAndExtractPngInfo b idx = Except.error e) ↔ ¬ pngGood b) ∧
    (pngGood b →
      validateAndExtractPngInfo b idx =
        Except.ok ⟨b, readUInt32BE b 16, readUInt32BE b 20, b.length⟩) := by
  constructor
  · constructor
    · rintro ⟨e, he⟩ hg
      rw [validate_ok_of_good b idx hg] at he
      exact absurd he (by simp)
    · exact validate_error_of_bad b idx
  · intro hg
    exact validate_ok_of_good b idx hg

/-- Witness for C4: the concrete 1x1 PNG validates to its own metadata. -/
theorem claim4_validate_spec_witness :
    validateAndExtractPngInfo png1 1 = Except.ok ⟨png1, 1, 1, 24⟩ := by
  have h := (claim4_validate_spec png1 1).2 (by decide)
  exact h

/-- C5: `isValidIco` is true exactly on buffers of length at least 6 whose
reserved field is 0, whose type field is 1 or 2 and whose count field is
in (0, 256]; being a total function of the embedding it never throws; and
it accepts every buffer `encodeIco` produces. -/
theorem claim5_isValidIco_spec :
    (∀ b : List Nat, isValidIco b = true ↔
      (6 ≤ b.length ∧ readUInt16LE b 0 = 0 ∧
        (readUInt16LE b 2 = 1 ∨ readUInt16LE b 2 = 2) ∧
        0 < readUInt16LE b 4 ∧ readUInt16LE b 4 ≤ 256)) ∧
    (∀ bufs out, encodeIco bufs = Except.ok out → isValidIco out = true) := by
  constructor
  · intro b
    unfold isValidIco
    by_cases hlen : b.length < 6
    · rw [if_pos hlen]
      constructor
      · intro h
        exact absurd h (by simp)
      · rintro ⟨h6, _, _, _, _⟩
        omega
    · rw [if_neg hlen]
      simp only [Bool.and_eq_true, Bool.or_eq_true, decide_eq_true_eq]
      constructor
      · rintro ⟨⟨⟨hr, ht⟩, hc1⟩, hc2⟩
        exact ⟨by omega, hr, ht, hc1, hc2⟩
      · rintro ⟨_, hr, ht, hc1, hc2⟩
        exact ⟨⟨⟨hr, ht⟩, hc1⟩, hc2⟩
  · exact isValidIco_of_encode

/-- Witness for C5: the encoder output for `[png1]` passes `isValidIco`. -/
theorem claim5_isValidIco_spec_witness : isValidIco out1 = true :=
  claim5_isValidIco_spec.2 [png1] out1 (by rfl)

/-- C6: a 256x256 input image is stored with width and height bytes 0 in
its directory entry, and decoding maps those bytes back to 256, so the
dimensions round-trip. -/
theorem claim6_wraparound (bufs : List (List Nat)) (out : List Nat)
    (h32 : out.length < 4294967296)
    (henc : encodeIco bufs = Except.ok out)
    (i : Nat) (hi : i < bufs.length)
    (hw : readUInt32BE (bufs.getD i []) 16 = 256)
    (hh : readUInt32BE (bufs.getD i []) 20 = 256) :
    out.getD (6 + 16 * i) 0 = 0 ∧ out.getD (6 + 16 * i + 1) 0 = 0 ∧
      ∃ info, getIcoInfo out = Except.ok info ∧
        (info.images.getD i ⟨0, 0, 0⟩).width = 256 ∧
        (info.images.getD i ⟨0, 0, 0⟩).height = 256 := by
  obtain ⟨hN1, hN2, hgood, hout⟩ := encodeIco_ok_elim bufs out henc
  refine ⟨?_, ?_, ?_⟩
  · rw [hout, show 6 + 16 * i = 6 + (16 * i + 0) by omega,
      out_getD bufs i 0 hi (by omega), entry_getD_0]
    rw [show (mkInfo (bufs.getD i [])).width = readUInt32BE (bufs.getD i []) 16
      from rfl, hw]
    norm_num
  · rw [hout, show 6 + 16 * i + 1 = 6 + (16 * i + 1) by omega,
      out_getD bufs i 1 hi (by omega), entry_getD_1]
    rw [show (mkInfo (bufs.getD i [])).height = readUInt32BE (bufs.getD i []) 20
      from rfl, hh]
    norm_num
  · refine ⟨_, decoded_images bufs out h32 henc, ?_, ?_⟩
    · dsimp only
      rw [getD_map_lt (fun b => (⟨readUInt32BE b 16, readUInt32BE b 20, b.length⟩ :
        IcoImageEntry)) bufs i hi [] ⟨0, 0, 0⟩]
      dsimp only
      exact hw
    · dsimp only
      rw [getD_map_lt (fun b => (⟨readUInt32BE b 16, readUInt32BE b 20, b.length⟩ :
        IcoImageEntry)) bufs i hi [] ⟨0, 0, 0⟩]
      dsimp only
      exact hh

/-- Witness for C6 on the concrete 256x256 PNG. -/
theorem claim6_wraparound_witness :
    out256.getD (6 + 16 * 0) 0 = 0 ∧ out256.getD (6 + 16 * 0 + 1) 0 = 0 ∧
      ∃ info, getIcoInfo out256 = Except.ok info ∧
        (info.images.getD 0 ⟨0, 0, 0⟩).width = 256 ∧
        (info.images.getD 0 ⟨0, 0, 0⟩).height = 256 :=
  claim6_wraparound [png256] out256 (by decide) (by rfl) 0 (by decide)
    (by decide) (by decide)

set_option maxRecDepth 10000 in
set_option maxHeartbeats 1000000 in
/-- C7: the 16-byte directory entry built from validated image metadata
stores the width and height bytes with the 256-to-0 substitution, zero
color-count and reserved bytes, planes = 1 and bits-per-pixel = 32 little
endian, the payload size at bytes 8-11 and the given offset at bytes
12-15, both little endian; being total, the construction never fails. -/
theorem claim7_entry_layout (info : PngImageInfo) (off : Nat)
    (hw1 : 0 < info.width) (hw2 : info.width ≤ 256)
    (hh1 : 0 < info.height) (hh2 : info.height ≤ 256)
    (hs : info.size < 4294967296) (ho : off < 4294967296) :
    (createIcoDirectoryEntry info off).length = 16 ∧
    (createIcoDirectoryEntry info off).getD 0 0 =
      (if info.width = 256 then 0 else info.width) ∧
    (createIcoDirectoryEntry info off).getD 1 0 =
      (if info.height = 256 then 0 else info.height) ∧
    (createIcoDirectoryEntry info off).getD 2 0 = 0 ∧
    (createIcoDirectoryEntry info off).getD 3 0 = 0 ∧
    readUInt16LE (createIcoDirectoryEntry info off) 4 = 1 ∧
    readUInt16LE (createIcoDirectoryEntry info off) 6 = 32 ∧
    readUInt32LE (createIcoDirectoryEntry info off) 8 = info.size ∧
    readUInt32LE (createIcoDirectoryEntry info off) 12 = off := by
  refine ⟨rfl, ?_, ?_, rfl, rfl, rfl, rfl, ?_, ?_⟩
  · rw [entry_getD_0]
    split
    · norm_num
    · omega
  · rw [entry_getD_1]
    split
    · norm_num
    · omega
  · have hr : readUInt32LE (createIcoDirectoryEntry info off) 8 =
        info.size % 256 + info.size / 256 % 256 * 256 +
          info.size / 65536 % 256 * 65536 +
          info.size / 16777216 % 256 * 16777216 := rfl
    rw [hr]
    omega
  · have hr : readUInt32LE (createIcoDirectoryEntry info off) 12 =
        off % 256 + off / 256 % 256 * 256 + off / 65536 % 256 * 65536 +
          off / 16777216 % 256 * 16777216 := rfl
    rw [hr]
    omega

set_option maxRecDepth 10000 in
set_option maxHeartbeats 1000000 in
/-- Witness for C7 on the concrete metadata record (32x32, 100 bytes,
offset 22). -/
theorem claim7_entry_layout_witness :
    (createIcoDirectoryEntry ⟨[], 32, 32, 100⟩ 22).length = 16 ∧
    (createIcoDirectoryEntry ⟨[], 32, 32, 100⟩ 22).getD 0 0 = 32 ∧
    (createIcoDirectoryEntry ⟨[], 32, 32, 100⟩ 22).getD 1 0 = 32 ∧
    (createIcoDirectoryEntry ⟨[], 32, 32, 100⟩ 22).getD 2 0 = 0 ∧
    (createIcoDirectoryEntry ⟨[], 32, 32, 100⟩ 22).getD 3 0 = 0 ∧
    readUInt16LE (createIcoDirectoryEntry ⟨[], 32, 32, 100⟩ 22) 4 = 1 ∧
    readUInt16LE (createIcoDirectoryEntry ⟨[], 32, 32, 100⟩ 22) 6 = 32 ∧
    readUInt32LE (createIcoDirectoryEntry ⟨[], 32, 32, 100⟩ 22) 8 = 100 ∧
    readUInt32LE (createIcoDirectoryEntry ⟨[], 32, 32, 100⟩ 22) 12 = 22 := by
  have h := claim7_entry_layout ⟨[], 32, 32, 100⟩ 22 (by decide) (by decide)
    (by decide) (by decide) (by decide) (by decide)
  exact h

/-- C8: `getIcoInfo` fails exactly when `isValidIco` is false; otherwise
it returns the declared count and type and walks the directory entries in
order, truncating silently after `min count ((length - 6) / 16)` entries
(the entries that fit in the buffer), applying the 0-means-256 reversal
to the width and height bytes and reporting the stored 32-bit size
without checking any payload bytes. -/
theorem claim8_getIcoInfo_spec (b : List Nat) :
    ((∃ e, getIcoInfo b = Except.error e) ↔ isValidIco b = false) ∧
    (isValidIco b = true →
      getIcoInfo b = Except.ok
        ⟨readUInt16LE b 4,
         if readUInt16LE b 2 = 1 then "ICO" else "CUR",
         (List.range (min (readUInt16LE b 4) ((b.length - 6) / 16))).map
           (fun k => ⟨rev256 (b.getD (6 + 16 * k) 0),
                      rev256 (b.getD (6 + 16 * k + 1) 0),
                      readUInt32LE b (6 + 16 * k + 8)⟩)⟩) := by
  constructor
  · cases hv : isValidIco b with
    | true =>
      constructor
      · rintro ⟨e, he⟩
        rw [getIcoInfo_of_valid b hv] at he
        exact absurd he (by simp)
      · intro hcontra
        exact absurd hcontra (by simp)
    | false =>
      constructor
      · intro _
        rfl
      · intro _
        refine ⟨"Invalid ICO file", ?_⟩
        unfold getIcoInfo
        rw [if_neg (by simp [hv])]
  · exact getIcoInfo_of_valid b

/-- Witness for C8: decoding the concrete encoder output `out1`. -/
theorem claim8_getIcoInfo_spec_witness :
    getIcoInfo out1 = Except.ok
      ⟨readUInt16LE out1 4,
       if readUInt16LE out1 2 = 1 then "ICO" else "CUR",
       (List.range (min (readUInt16LE out1 4) ((out1.length - 6) / 16))).map
         (fun k => ⟨rev256 (out1.getD (6 + 16 * k) 0),
                    rev256 (out1.getD (6 + 16 * k + 1) 0),
                    readUInt32LE out1 (6 + 16 * k + 8)⟩)⟩ :=
  (claim8_getIcoInfo_spec out1).2 (by rfl)

/-- C10: the two `encodeIco` implementations of the repository agree on
every batch the validated encoder accepts: whenever the validated
`encodeIco` returns a buffer, the validation-free variant returns the
byte-for-byte identical buffer. -/
theorem claim10_encoders_agree (bufs : List (List Nat)) (out : List Nat)
    (henc : encodeIco bufs = Except.ok out) :
    encodeIcoAlt bufs = Except.ok out := by
  obtain ⟨h1, h2, h3, hout⟩ := encodeIco_ok_elim bufs out henc
  unfold encodeIcoAlt
  dsimp only
  rw [altDirEntries_of_good bufs (6 + 16 * bufs.length) h3]
  dsimp only
  rw [hout]

/-- Witness for C10 on the concrete batch `[png1]`. -/
theorem claim10_encoders_agree_witness : encodeIcoAlt [png1] = Except.ok out1 :=
  claim10_encoders_agree [png1] out1 (by rfl)
